import Mathlib

/-!
Verification of the primer-finder repository against its specification.

Each definition below is a shallow embedding of a function of the source
tree (file and symbol named in its doc comment).  Python strings are
modelled as lists of characters, Python ints as integers, Python floats
(scores, cutoffs) as rationals, fallible code as Option, and a raised
exception as a none result.  The theorems at the end of the file settle
the claims C1 to C10.
-/

set_option maxHeartbeats 1000000

/-- Embeds matching/dtos/match_result_dto.py, class MatchResultDTO.
Fields in source order: score, read, start_index, end_index,
primer_sequence, quality_cutoff (Python default 0.7, i.e. 7/10). -/
structure MatchResultDTO where
  score : ℚ
  read : List Char
  start_index : ℤ
  end_index : ℤ
  primer_sequence : List Char
  quality_cutoff : ℚ
deriving DecidableEq

/-- Embeds MatchResultDTO.is_mismatch: true exactly when start_index is -1. -/
def MatchResultDTO.is_mismatch (m : MatchResultDTO) : Bool :=
  if m.start_index = -1 then true else false

/-- Embeds the expression MatchResultDTO(0, "", 0, 0, primer) that the source
uses for degenerate alignments and for invalidated matches
(smith_waterman.py lines 113-179, primer_finder.py lines 225-227). -/
def emptyMatch (primer : List Char) : MatchResultDTO :=
  ⟨0, [], 0, 0, primer, 7/10⟩

/-- Embeds matching/smith_waterman.py, default_substitution_function.
The Python match statement on the primer letter with a membership test of
the read letter in a literal string becomes a chain of conditionals. -/
def defaultSubstitutionFunction (p r : Char) : ℤ :=
  if p = 'A' then (if r ∈ ['A'] then 2 else -1)
  else if p = 'C' then (if r ∈ ['C'] then 2 else -1)
  else if p = 'G' then (if r ∈ ['G'] then 2 else -1)
  else if p = 'T' then (if r ∈ ['T', 'U'] then 2 else -1)
  else if p = 'U' then (if r ∈ ['T', 'U'] then 2 else -1)
  else if p = 'W' then (if r ∈ ['W', 'A', 'T', 'U'] then 2 else -1)
  else if p = 'S' then (if r ∈ ['S', 'C', 'G'] then 2 else -1)
  else if p = 'M' then (if r ∈ ['M', 'A', 'C'] then 2 else -1)
  else if p = 'K' then (if r ∈ ['K', 'G', 'T', 'U'] then 2 else -1)
  else if p = 'R' then (if r ∈ ['R', 'A', 'G'] then 2 else -1)
  else if p = 'Y' then (if r ∈ ['Y', 'C', 'T', 'U'] then 2 else -1)
  else if p = 'B' then (if r ∈ ['B', 'C', 'G', 'T', 'S', 'K', 'Y', 'U'] then 2 else -1)
  else if p = 'D' then (if r ∈ ['D', 'A', 'G', 'T', 'W', 'K', 'R', 'U'] then 2 else -1)
  else if p = 'H' then (if r ∈ ['H', 'A', 'C', 'T', 'W', 'M', 'Y', 'U'] then 2 else -1)
  else if p = 'V' then (if r ∈ ['V', 'A', 'C', 'G', 'S', 'M', 'R'] then 2 else -1)
  else if p = 'N' then 2
  else if p = '-' then 0
  else -1

/-- Modelled from the spec: the glossary's IUPAC notation table, mapping a
IUPAC letter to the set of concrete bases it encodes (U aliased to T, and
any letter outside the table to the empty set).  This is the reference
notion of "IUPAC expansion" that claim C7 compares the code against; it is
not part of the source. -/
def iupacBases (c : Char) : List Char :=
  if c = 'A' then ['A'] else if c = 'C' then ['C'] else if c = 'G' then ['G']
  else if c = 'T' then ['T'] else if c = 'U' then ['T']
  else if c = 'W' then ['A', 'T'] else if c = 'S' then ['C', 'G']
  else if c = 'M' then ['A', 'C'] else if c = 'K' then ['G', 'T']
  else if c = 'R' then ['A', 'G'] else if c = 'Y' then ['C', 'T']
  else if c = 'B' then ['C', 'G', 'T'] else if c = 'D' then ['A', 'G', 'T']
  else if c = 'H' then ['A', 'C', 'T'] else if c = 'V' then ['A', 'C', 'G']
  else if c = 'N' then ['A', 'C', 'G', 'T']
  else []

/-- Embeds connectors/db_connector.py, DbConnector._set_flags.  The
connector's configured cutoff is passed as the first argument; the
absolute cutoff of a side is cutoff * 2 * len(primer_sequence). -/
def setFlags (cutoff : ℚ) (forward_match backward_match : MatchResultDTO) : ℤ :=
  if forward_match.score < cutoff * 2 * forward_match.primer_sequence.length then
    (if backward_match.score < cutoff * 2 * backward_match.primer_sequence.length then -3 else -1)
  else
    (if backward_match.score < cutoff * 2 * backward_match.primer_sequence.length then -2 else 0)

/-- Embeds connectors/db_connector.py, _encrypt_po: sum of 1 shifted left
by each listed frame, i.e. the sum of 2 to the power of each frame. -/
def encrypt_po (possible_orf : List ℕ) : ℕ :=
  (possible_orf.map (fun orf => 2 ^ orf)).sum

/-- Fuel-driven helper computing the Python int.bit_length used by
_decrypt_po; the fuel argument only forces termination and any fuel at
least the number itself gives the exact bit length. -/
def pyBitLengthAux : ℕ → ℕ → ℕ
  | 0, _ => 0
  | fuel + 1, n => if n = 0 then 0 else pyBitLengthAux fuel (n / 2) + 1

/-- Python's int.bit_length. -/
def pyBitLength (n : ℕ) : ℕ := pyBitLengthAux n n

/-- Embeds connectors/db_connector.py, _decrypt_po: the list of bit
positions below bit_length whose bit is set. -/
def decrypt_po (possible_orf : ℕ) : List ℕ :=
  (List.range (pyBitLength possible_orf)).filter (fun i => possible_orf.testBit i)

/-- Embeds orf/decider.py, _trim_to_triplet: drop the trailing remainder
so the length becomes a multiple of three. -/
def trimToTriplet (s : List Char) : List Char :=
  if s.length % 3 = 0 then s else s.take (s.length - s.length % 3)

/-- Embeds orf/finder.py, list_possible_orf.  The external
Bio.Seq.translate is abstracted as a function argument; a none result
models a raised TranslationError or ValueError, both of which only skip
the frame.  A none sequence models Python None. -/
def listPossibleOrf (translate : List Char → Option (List Char))
    (sequence : Option (List Char)) : List ℕ :=
  match sequence with
  | none => []
  | some s =>
    if s.length = 0 then []
    else
      (List.range 3).foldl (fun acc frame =>
        let framed := trimToTriplet (s.drop frame)
        if framed.length = 0 then acc
        else
          match translate framed with
          | none => acc
          | some protein =>
            if '*' ∉ protein ∧ 'X' ∉ protein then acc ++ [frame] else acc) []

/-- Embeds Python list slicing l[i:] where i may be negative (a negative
index counts from the end of the list), as used by Seq(dna)[offset:] in
orf/decider.py, _dna_to_aa. -/
def pySliceFrom (l : List Char) (i : ℤ) : List Char :=
  if i < 0 then l.drop (l.length - (-i).toNat) else l.drop i.toNat

/-- Embeds orf/decider.py, OrfDecider._dna_to_aa with the external
translation abstracted as a function argument. -/
def dnaToAa (translate : List Char → List Char) (dna : List Char) (offset : ℤ) : List Char :=
  translate (trimToTriplet (pySliceFrom dna offset))

/-- One row of the primer_pairs chunk that orf/decider.py,
OrfDecider._process_trivial_orfs operates on: orf_candidates is the
integer bitmask stored by the connector, orf_index is none while the pair
is unresolved (SQL NULL read as NaN), orf_aa likewise. -/
structure PairChunkRow where
  inter_primer_sequence : List Char
  orf_candidates : ℕ
  orf_index : Option ℤ
  orf_aa : Option (List Char)
deriving DecidableEq

/-- Models Python subscripting of an integer value, x[0] with x an int,
which raises a TypeError for every index: the result is always none. -/
def intSubscript (_ : ℕ) (_ : ℕ) : Option ℤ := none

/-- Embeds orf/decider.py, OrfDecider._process_trivial_orfs on one row
(the pandas apply calls the two lambdas row by row; an exception in a
lambda aborts the whole apply, modelled by a none result).  The first
lambda keeps orf_index unless the decoded candidate set is a singleton,
in which case the source evaluates x["orf_candidates"][0] - a subscript
of the integer bitmask.  The second lambda recomputes orf_aa from the
(updated) orf_index unless that is missing. -/
def processTrivialRow (translate : List Char → List Char) (x : PairChunkRow) :
    Option PairChunkRow :=
  let idxStep : Option (Option ℤ) :=
    if (decrypt_po x.orf_candidates).length = 1 then
      (intSubscript x.orf_candidates 0).map some
    else some x.orf_index
  match idxStep with
  | none => none
  | some newIdx =>
    let newAa : Option (List Char) :=
      match newIdx with
      | none => x.orf_aa
      | some v => some (dnaToAa translate x.inter_primer_sequence v)
    some ⟨x.inter_primer_sequence, x.orf_candidates, newIdx, newAa⟩

/-- One row of the related-group query result used by
connectors/db_connector.py, fetch_sampled_solved_related_sequences:
orf_index is none for SQL NULL and matching_flags is the stored flag. -/
structure GroupRow where
  orf_index : Option ℤ
  matching_flags : ℤ
deriving DecidableEq

/-- Embeds the pandas filter
matching_entries[(orf_index >= 0) & (matching_flags == 0)]; a NULL
orf_index compares as false. -/
def solvedGoodFilter (entries : List GroupRow) : List GroupRow :=
  entries.filter (fun e =>
    (match e.orf_index with
     | some v => decide (0 ≤ v)
     | none => false) && (e.matching_flags == 0))

/-- Embeds connectors/db_connector.py,
DbConnector.fetch_sampled_solved_related_sequences.  The preceding
_fetch_related_sequences database call is abstracted as the first
argument (none models a failed fetch); the pandas random sample of
sample_size rows is modelled by taking the first sample_size rows, which
preserves the sample's size - the only aspect the claims mention. -/
def fetchSampledSolvedRelated (fetched : Option (List GroupRow))
    (lower upper : ℕ) : Option (List GroupRow) × Bool :=
  match fetched with
  | none => (none, false)
  | some entries =>
    let filtered := solvedGoodFilter entries
    if lower < filtered.length then
      (some (filtered.take (min upper filtered.length)), true)
    else (none, false)

/-- Embeds the constructor state of matching/smith_waterman.py, class
SmithWaterman: the two gap penalties, the end-of-read bonus and the
substitution function. -/
structure SmithWaterman where
  gap_penalty : ℤ
  triplet_gap_penalty : ℤ
  end_of_read_bonus_value : ℤ
  substitution_function : Char → Char → ℤ

/-- Embeds self.match_value = substitution_function("A", "A"). -/
def SmithWaterman.match_value (sw : SmithWaterman) : ℤ :=
  sw.substitution_function 'A' 'A'

/-- Reads cell (i, j) of a score matrix represented as a list of rows;
out-of-range reads default to 0 (all reads in the algorithm are in
range). -/
def mget (m : List (List ℤ)) (i j : ℕ) : ℤ := (m.getD i []).getD j 0

/-- Writes cell (i, j) of a score matrix. -/
def mset (m : List (List ℤ)) (i j : ℕ) (v : ℤ) : List (List ℤ) :=
  m.set i ((m.getD i []).set j v)

/-- Reads cell (i, j) of the traceback matrix. -/
def tget (m : List (List ℕ)) (i j : ℕ) : ℕ := (m.getD i []).getD j 0

/-- Writes cell (i, j) of the traceback matrix. -/
def tset (m : List (List ℕ)) (i j : ℕ) (v : ℕ) : List (List ℕ) :=
  m.set i ((m.getD i []).set j v)

/-- State threaded through the matrix-filling loops of
SmithWaterman.align: the score matrix, the traceback matrix, max_score
and max_pos (bi, bj). -/
structure SWState where
  smat : List (List ℤ)
  tmat : List (List ℕ)
  best : ℤ
  bi : ℕ
  bj : ℕ

/-- Row-major cell coordinates (i, j) with 3 ≤ i < rows and
3 ≤ j < cols, the iteration space of the main double loop of
SmithWaterman.align. -/
def cellIndices (rows cols : ℕ) : List (ℕ × ℕ) :=
  List.product (List.range' 3 (rows - 3)) (List.range' 3 (cols - 3))

/-- Embeds the left-border bonus initialisation of SmithWaterman.align
(rows 2 and above, columns 0 to 2 set to bonus * (i - 2)). -/
def leftBonusInit (bonus : ℤ) (rows : ℕ) (m : List (List ℤ)) : List (List ℤ) :=
  (List.product (List.range' 2 (rows - 2)) (List.range 3)).foldl
    (fun acc ij => mset acc ij.1 ij.2 (bonus * ((ij.1 : ℤ) - 2))) m

/-- Embeds one iteration of the main double loop of SmithWaterman.align:
compute the six candidate scores in source order, take the first maximal
one (Python scores.index(max(scores))), write score and traceback cells,
and update max_score / max_pos on a strict improvement. -/
def mainStep (sw : SmithWaterman) (p w : List Char) (st : SWState) (ij : ℕ × ℕ) : SWState :=
  let ms := mget st.smat (ij.1 - 1) (ij.2 - 1) +
    sw.substitution_function (p.getD (ij.1 - 3) 'N') (w.getD (ij.2 - 3) 'N')
  let del := mget st.smat (ij.1 - 1) ij.2 + sw.gap_penalty
  let ins := mget st.smat ij.1 (ij.2 - 1) + sw.gap_penalty
  let del3 := mget st.smat (ij.1 - 3) ij.2 + sw.triplet_gap_penalty
  let ins3 := mget st.smat ij.1 (ij.2 - 3) + sw.triplet_gap_penalty
  let scores : List ℤ := [0, ms, del, ins, del3, ins3]
  let mx := scores.foldl max 0
  let idx := scores.indexOf mx
  let v := mget st.smat ij.1 ij.2 + mx
  let s2 := mset st.smat ij.1 ij.2 v
  let t2 := tset st.tmat ij.1 ij.2 (if 0 < mx then idx else 0)
  if st.best < v then ⟨s2, t2, v, ij.1, ij.2⟩ else ⟨s2, t2, st.best, st.bi, st.bj⟩

/-- Embeds one iteration of the right-border bonus pass of
SmithWaterman.align: add max(0, bonus * (rows - i - 1)) to the last
column of row i and update max_score / max_pos on a strict improvement. -/
def rightBonusStep (sw : SmithWaterman) (rows cols : ℕ) (st : SWState) (i : ℕ) : SWState :=
  let v := mget st.smat i (cols - 1) +
    max 0 (sw.end_of_read_bonus_value * ((rows : ℤ) - (i : ℤ) - 1))
  let s2 := mset st.smat i (cols - 1) v
  if st.best < v then ⟨s2, st.tmat, v, i, cols - 1⟩ else ⟨s2, st.tmat, st.best, st.bi, st.bj⟩

/-- Embeds the matrix construction of SmithWaterman.align: zero-filled
matrices of size (|primer| + 3) x (|window| + 3), the optional
left-border bonus, the main double loop, and the optional right-border
bonus pass. -/
def alignMatrices (sw : SmithWaterman) (p w : List Char) (flags : Bool × Bool) : SWState :=
  let rows := p.length + 3
  let cols := w.length + 3
  let smat0 := List.replicate rows (List.replicate cols (0 : ℤ))
  let smat1 := if flags.1 then leftBonusInit sw.end_of_read_bonus_value rows smat0 else smat0
  let tmat0 := List.replicate rows (List.replicate cols (0 : ℕ))
  let st1 := (cellIndices rows cols).foldl (mainStep sw p w) ⟨smat1, tmat0, 0, 0, 0⟩
  if flags.2 then (List.range' 3 (rows - 3)).foldl (rightBonusStep sw rows cols) st1 else st1

/-- Number of gap characters a triplet up-move emits (the source appends
a dash for each k below 3 with i - k above 2). -/
def dashCount (i : ℕ) : ℕ :=
  ((List.range 3).filter (fun k => 2 < i - k)).length

/-- Window characters a triplet left-move emits, in final (reversed)
order (the source appends window[j - 3 - k] for each k below 3 with
j - k above 2). -/
def tripletTake (w : List Char) (j : ℕ) : List Char :=
  (((List.range 3).filter (fun k => 2 < j - k)).reverse).map (fun k => w.getD (j - 3 - k) 'N')

/-- Embeds the traceback loop of SmithWaterman.align.  The accumulator
holds the aligned fragment with the newest character at the head, which
equals the source's appended list after its final reversal.  The fuel
argument only forces termination; every loop step decreases i + j, so
fuel i + j is enough for the loop to run to its natural exit. -/
def tracebackAux (w : List Char) (smat : List (List ℤ)) (tmat : List (List ℕ)) :
    ℕ → ℕ → ℕ → List Char → ℕ × ℕ × List Char
  | 0, i, j, acc => (i, j, acc)
  | fuel + 1, i, j, acc =>
    if 3 ≤ i ∧ 3 ≤ j ∧ 0 < mget smat i j then
      let d := tget tmat i j
      if d = 1 then tracebackAux w smat tmat fuel (i - 1) (j - 1) (w.getD (j - 3) 'N' :: acc)
      else if d = 2 then tracebackAux w smat tmat fuel (i - 1) j ('-' :: acc)
      else if d = 3 then tracebackAux w smat tmat fuel i (j - 1) (w.getD (j - 3) 'N' :: acc)
      else if d = 4 then tracebackAux w smat tmat fuel (i - 3) j (List.replicate (dashCount i) '-' ++ acc)
      else if d = 5 then tracebackAux w smat tmat fuel i (j - 3) (tripletTake w j ++ acc)
      else (i, j, acc)
    else (i, j, acc)

/-- Runs the traceback of SmithWaterman.align from max_pos. -/
def alignTrace (sw : SmithWaterman) (p w : List Char) (flags : Bool × Bool) :
    ℕ × ℕ × List Char :=
  tracebackAux w (alignMatrices sw p w flags).smat (alignMatrices sw p w flags).tmat
    ((alignMatrices sw p w flags).bi + (alignMatrices sw p w flags).bj)
    (alignMatrices sw p w flags).bi (alignMatrices sw p w flags).bj []

/-- Embeds the result assembly of SmithWaterman.align:
start = max(0, j - 2) (natural subtraction), end = min(start +
len(aligned_read), len(window)), score = max_score. -/
def alignResult (sw : SmithWaterman) (p w : List Char) (flags : Bool × Bool) : MatchResultDTO :=
  ⟨((alignMatrices sw p w flags).best : ℚ),
   (alignTrace sw p w flags).2.2,
   (((alignTrace sw p w flags).2.1 - 2 : ℕ) : ℤ),
   ((min ((alignTrace sw p w flags).2.1 - 2 + (alignTrace sw p w flags).2.2.length) w.length : ℕ) : ℤ),
   p, 7/10⟩

/-- Embeds matching/smith_waterman.py, SmithWaterman.align, including the
early returns for an empty primer and an empty window. -/
def align (sw : SmithWaterman) (p w : List Char) (flags : Bool × Bool) : MatchResultDTO :=
  if p = [] then emptyMatch p
  else if w = [] then emptyMatch p
  else alignResult sw p w flags

/-- Embeds matching/smith_waterman.py, SmithWaterman.align_partial, named
for Lean: clamp a negative interval start to 0, return an empty result
when the clamped start reaches the interval end, otherwise align against
the Python slice super[start:end] and shift both indices back by the
clamped start.  The border-bonus flags are (start == 0, end == len). -/
def alignInterval (sw : SmithWaterman) (primer superSeq : List Char) (lo hi : ℤ) :
    MatchResultDTO :=
  if hi ≤ max 0 lo then emptyMatch primer
  else
    let m := align sw primer ((superSeq.take hi.toNat).drop (max 0 lo).toNat)
      (max 0 lo == 0, hi == (superSeq.length : ℤ))
    ⟨m.score, m.read, m.start_index + max 0 lo, m.end_index + max 0 lo,
     m.primer_sequence, m.quality_cutoff⟩

/-- Embeds one position of the character-class regex produced by
matching/regex.py, regex_builder: the class of primer letter p accepts
read character c.  N and unknown letters compile to a dot, which accepts
any character (DNA input contains no newline, so the dot's newline
exception is immaterial). -/
def charClassMatches (p c : Char) : Bool :=
  if p = 'A' then c == 'A'
  else if p = 'C' then c == 'C'
  else if p = 'G' then c == 'G'
  else if p = 'T' then decide (c ∈ ['T', 'U'])
  else if p = 'U' then decide (c ∈ ['T', 'U'])
  else if p = 'W' then decide (c ∈ ['W', 'A', 'T', 'U'])
  else if p = 'S' then decide (c ∈ ['S', 'C', 'G'])
  else if p = 'M' then decide (c ∈ ['M', 'A', 'C'])
  else if p = 'K' then decide (c ∈ ['K', 'G', 'T', 'U'])
  else if p = 'R' then decide (c ∈ ['R', 'A', 'G'])
  else if p = 'Y' then decide (c ∈ ['Y', 'C', 'T', 'U'])
  else if p = 'B' then decide (c ∈ ['B', 'C', 'G', 'T', 'S', 'K', 'Y', 'U'])
  else if p = 'D' then decide (c ∈ ['D', 'A', 'G', 'T', 'W', 'K', 'R', 'U'])
  else if p = 'H' then decide (c ∈ ['H', 'A', 'C', 'T', 'W', 'M', 'Y', 'U'])
  else if p = 'V' then decide (c ∈ ['V', 'A', 'C', 'G', 'S', 'M', 'R'])
  else true

/-- The compiled regex of a primer matches the read at position pos: the
pattern fits inside the read and every position's class accepts. -/
def matchesAt (primer read : List Char) (pos : ℕ) : Bool :=
  decide (pos + primer.length ≤ read.length) &&
    (List.range primer.length).all (fun k =>
      charClassMatches (primer.getD k 'N') (read.getD (pos + k) 'N'))

/-- Embeds matching/regex.py, find_exact_match: re.search returns the
span of the leftmost match of the fixed-length class pattern, or
(-1, -1) when there is none. -/
def findExactMatch (primer read : List Char) : ℤ × ℤ :=
  match (List.range (read.length + 1)).find? (fun pos => matchesAt primer read pos) with
  | some pos => ((pos : ℤ), ((pos + primer.length : ℕ) : ℤ))
  | none => (-1, -1)

/-- Embeds matching/primer_finder.py, PrimerFinder._compute_regex_match:
on a match the score is len(primer) * match_value and the matched slice
is kept; on no match the result keeps the (-1, -1) span with score 0. -/
def computeRegexMatch (sw : SmithWaterman) (primer read : List Char) : MatchResultDTO :=
  if (findExactMatch primer read).1 ≠ -1 then
    ⟨(((primer.length : ℤ) * sw.match_value : ℤ) : ℚ),
     (read.take (findExactMatch primer read).2.toNat).drop (findExactMatch primer read).1.toNat,
     (findExactMatch primer read).1, (findExactMatch primer read).2, primer, 7/10⟩
  else ⟨0, [], (findExactMatch primer read).1, (findExactMatch primer read).2, primer, 7/10⟩

/-- Embeds Python str.strip(): remove leading and trailing whitespace. -/
def pyStrip (s : List Char) : List Char :=
  ((s.dropWhile Char.isWhitespace).reverse.dropWhile Char.isWhitespace).reverse

/-- Clamp an index into the interval from 0 to n, as the index-repair
block of PrimerFinder._process_sequence does (lines 206-213). -/
def clampZ (v : ℤ) (n : ℕ) : ℤ := min (max v 0) (n : ℤ)

/-- The forward match after the index-repair block: its end_index clamped
into the sequence. -/
def clampedFwd (dna : List Char) (fwd : MatchResultDTO) : MatchResultDTO :=
  ⟨fwd.score, fwd.read, fwd.start_index, clampZ fwd.end_index dna.length,
   fwd.primer_sequence, fwd.quality_cutoff⟩

/-- The reverse match after the index-repair block: its start_index
clamped into the sequence. -/
def clampedRev (dna : List Char) (rev : MatchResultDTO) : MatchResultDTO :=
  ⟨rev.score, rev.read, clampZ rev.start_index dna.length, rev.end_index,
   rev.primer_sequence, rev.quality_cutoff⟩

/-- Embeds the inter-primer region computation of
PrimerFinder._process_sequence: empty when the forward end exceeds the
reverse start, otherwise the slice between the two clamped indices. -/
def interRegion (dna : List Char) (fwd rev : MatchResultDTO) : List Char :=
  if rev.start_index < fwd.end_index then []
  else (dna.take rev.start_index.toNat).drop fwd.end_index.toNat

/-- The per-base normalised score score / max(1, len(primer_sequence))
used by the invalidation comparison of PrimerFinder._process_sequence. -/
def normScore (m : MatchResultDTO) : ℚ :=
  m.score / (max 1 (m.primer_sequence.length : ℚ))

/-- Embeds lines 204-241 of matching/primer_finder.py,
PrimerFinder._process_sequence: clamp the facing indices, compute the
inter-primer region, and when the stripped region is empty invalidate the
side with the smaller per-base normalised score (the reverse side on
ties), replacing it by MatchResultDTO(0, "", 0, 0, query_primer); the
region becomes none in that case. -/
def processRegionStep (fwdQueryPrimer revQueryPrimer : List Char) (dna : List Char)
    (fwd rev : MatchResultDTO) : MatchResultDTO × MatchResultDTO × Option (List Char) :=
  if 0 < (pyStrip (interRegion dna (clampedFwd dna fwd) (clampedRev dna rev))).length then
    (clampedFwd dna fwd, clampedRev dna rev,
     some (interRegion dna (clampedFwd dna fwd) (clampedRev dna rev)))
  else if normScore (clampedFwd dna fwd) < normScore (clampedRev dna rev) then
    (emptyMatch fwdQueryPrimer, clampedRev dna rev, none)
  else
    (clampedFwd dna fwd, emptyMatch revQueryPrimer, none)

/-- The index well-formedness predicate of claim C2, in its amended form:
indices are ordered and within the window of length n. -/
def indexBounds (n : ℕ) (m : MatchResultDTO) : Prop :=
  0 ≤ m.start_index ∧ m.start_index ≤ m.end_index ∧ m.end_index ≤ (n : ℤ)

/-- Concrete aligner configuration used by the counterexamples and
witnesses: gap penalty -2, triplet gap penalty -2, end-of-read bonus 1,
default substitution function. -/
def swX : SmithWaterman := ⟨-2, -2, 1, defaultSubstitutionFunction⟩

/-- Concrete forward match used by the C9 counterexample: score 8,
span 0 to 2, primer AC. -/
def fwdX : MatchResultDTO := ⟨8, ['A', 'C'], 0, 2, ['A', 'C'], 7/10⟩

/-- Concrete reverse match used by the C9 counterexample: score 8,
span 2 to 4, primer GT. -/
def revX : MatchResultDTO := ⟨8, ['G', 'T'], 2, 4, ['G', 'T'], 7/10⟩

/-- Concrete sequence ACGT used by the C9 counterexample. -/
def dnaX : List Char := ['A', 'C', 'G', 'T']

instance indexBoundsDecidable (n : ℕ) (m : MatchResultDTO) : Decidable (indexBounds n m) :=
  inferInstanceAs (Decidable (0 ≤ m.start_index ∧ m.start_index ≤ m.end_index ∧ m.end_index ≤ (n : ℤ)))

/-- C10: MatchResultDTO.is_mismatch depends only on start_index, holds
exactly when start_index = -1, and a result with start_index = 0 and
end_index = 0 is not classified as a mismatch. -/
theorem c10_is_mismatch :
    ∀ m m2 : MatchResultDTO,
      (m.start_index = m2.start_index → m.is_mismatch = m2.is_mismatch) ∧
      (m.is_mismatch = true ↔ m.start_index = -1) ∧
      (⟨0, [], 0, 0, [], 7/10⟩ : MatchResultDTO).is_mismatch = false := by
  intro m m2
  refine ⟨fun h => by simp [MatchResultDTO.is_mismatch, h], ?_, rfl⟩
  unfold MatchResultDTO.is_mismatch
  split_ifs with h <;> simp [h]

theorem c10_is_mismatch_witness :
    (⟨0, [], 5, 6, [], 7/10⟩ : MatchResultDTO).is_mismatch =
      (⟨1, ['A'], 5, 9, ['A'], 7/10⟩ : MatchResultDTO).is_mismatch :=
  (c10_is_mismatch ⟨0, [], 5, 6, [], 7/10⟩ ⟨1, ['A'], 5, 9, ['A'], 7/10⟩).1 rfl

/-- C1 counterexample: with cutoff 1, a forward match of score 0 on a
one-letter primer (absolute cutoff 2, so the forward side missed) and a
backward match of score 3 on a one-letter primer (exceeding its cutoff),
the code returns -1, not the -2 the claim assigns to a missed forward
side. -/
theorem c1_flags_counterexample :
    setFlags 1 ⟨0, [], 0, 1, ['A'], 7/10⟩ ⟨3, [], 0, 1, ['A'], 7/10⟩ = -1 ∧
    setFlags 1 ⟨0, [], 0, 1, ['A'], 7/10⟩ ⟨3, [], 0, 1, ['A'], 7/10⟩ ≠ -2 ∧
    (0 : ℚ) < 1 * 2 * ((['A'] : List Char).length : ℚ) ∧
    ¬ ((3 : ℚ) < 1 * 2 * ((['A'] : List Char).length : ℚ)) := by
  refine ⟨?_, ?_, by norm_num, by norm_num⟩ <;>
    · unfold setFlags
      norm_num

/-- C1 amended: the flag is 0 iff both scores meet or exceed their
absolute cutoffs, -1 iff only the forward side is below its cutoff,
-2 iff only the backward (reverse) side is below, and -3 iff both are
below. -/
theorem c1_flags_amended :
    ∀ (cutoff : ℚ) (f b : MatchResultDTO),
      (setFlags cutoff f b = 0 ↔
        ¬ f.score < cutoff * 2 * f.primer_sequence.length ∧
        ¬ b.score < cutoff * 2 * b.primer_sequence.length) ∧
      (setFlags cutoff f b = -1 ↔
        f.score < cutoff * 2 * f.primer_sequence.length ∧
        ¬ b.score < cutoff * 2 * b.primer_sequence.length) ∧
      (setFlags cutoff f b = -2 ↔
        ¬ f.score < cutoff * 2 * f.primer_sequence.length ∧
        b.score < cutoff * 2 * b.primer_sequence.length) ∧
      (setFlags cutoff f b = -3 ↔
        f.score < cutoff * 2 * f.primer_sequence.length ∧
        b.score < cutoff * 2 * b.primer_sequence.length) := by
  intro cutoff f b
  unfold setFlags
  split_ifs with h1 h2 h3 <;> refine ⟨?_, ?_, ?_, ?_⟩ <;> simp_all

/-- C4: evaluation of Phase A at the failing input.  A row whose
orf_candidates bitmask 2 decodes to the single frame 1 makes the first
lambda subscript the integer bitmask, raising a TypeError (result none),
where the claim and spec require orf_index = 1; a row whose bitmask 0
decodes to no frame is returned with orf_index still unresolved and
orf_aa untouched, where the claim requires orf_index = -1 and an empty
orf_aa. -/
theorem c4_trivial_orfs_failing :
    processTrivialRow (fun _ => []) ⟨['A', 'A', 'A'], 2, none, none⟩ = none ∧
    processTrivialRow (fun _ => []) ⟨['A', 'A', 'A'], 0, none, none⟩ =
      some ⟨['A', 'A', 'A'], 0, none, none⟩ := by
  exact ⟨rfl, rfl⟩

/-- C6 counterexample: a related group with exactly one solved entry of
matching flag 0 and resolved orf_index, queried with lower threshold 1,
has size equal to the lower threshold, yet the code reports failure
because it compares with a strict inequality. -/
theorem c6_sample_counterexample :
    (solvedGoodFilter [⟨some 0, 0⟩]).length = 1 ∧
    (fetchSampledSolvedRelated (some [⟨some 0, 0⟩]) 1 5).2 = false := by
  exact ⟨rfl, rfl⟩

/-- C6 amended: the fetch succeeds iff the filtered set S is strictly
larger than the lower threshold, and then the sample's size is
min(card of S, upper). -/
theorem c6_sample_amended :
    ∀ (entries : List GroupRow) (lower upper : ℕ),
      ((fetchSampledSolvedRelated (some entries) lower upper).2 = true ↔
        lower < (solvedGoodFilter entries).length) ∧
      (lower < (solvedGoodFilter entries).length →
        ∃ s, (fetchSampledSolvedRelated (some entries) lower upper).1 = some s ∧
          s.length = min (solvedGoodFilter entries).length upper) := by
  intro entries lower upper
  unfold fetchSampledSolvedRelated
  by_cases h : lower < (solvedGoodFilter entries).length
  · refine ⟨by simp [h], fun _ =>
      ⟨(solvedGoodFilter entries).take (min upper (solvedGoodFilter entries).length),
       by simp [h], ?_⟩⟩
    rw [List.length_take]
    omega
  · exact ⟨by simp [h], fun hc => absurd hc h⟩

theorem c6_sample_witness :
    ∃ s, (fetchSampledSolvedRelated (some [⟨some 0, 0⟩, ⟨some 1, 0⟩]) 1 5).1 = some s ∧
      s.length = min (solvedGoodFilter [⟨some 0, 0⟩, ⟨some 1, 0⟩]).length 5 :=
  (c6_sample_amended [⟨some 0, 0⟩, ⟨some 1, 0⟩] 1 5).2 (by decide)

/-- C7 counterexample: the substitution function scores the degenerate
read letter W against the primer letter W as +2, although W is not among
the concrete bases A, T that the IUPAC expansion of W consists of - so
the claimed rule (+2 iff the read letter is in the expansion, -1
otherwise) assigns this pair -1. -/
theorem c7_substitution_counterexample :
    defaultSubstitutionFunction 'W' 'W' = 2 ∧
    'W' ∉ iupacBases 'W' ∧
    defaultSubstitutionFunction 'W' 'W' ≠ -1 := by
  exact ⟨rfl, by decide, by decide⟩

/-- C7 amended: a primer gap character scores 0, a primer N scores +2
against every read character, and every other primer letter scores +2
exactly when the read letter is an IUPAC letter (U included) whose base
set is non-empty and contained in the primer letter's base set - and -1
otherwise. -/
theorem char17_cases (c : Char) :
    c = 'A' ∨ c = 'C' ∨ c = 'G' ∨ c = 'T' ∨ c = 'U' ∨ c = 'W' ∨ c = 'S' ∨ c = 'M' ∨
    c = 'K' ∨ c = 'R' ∨ c = 'Y' ∨ c = 'B' ∨ c = 'D' ∨ c = 'H' ∨ c = 'V' ∨ c = 'N' ∨
    c = '-' ∨ (c ≠ 'A' ∧ c ≠ 'C' ∧ c ≠ 'G' ∧ c ≠ 'T' ∧ c ≠ 'U' ∧ c ≠ 'W' ∧ c ≠ 'S' ∧
       c ≠ 'M' ∧ c ≠ 'K' ∧ c ≠ 'R' ∧ c ≠ 'Y' ∧ c ≠ 'B' ∧ c ≠ 'D' ∧ c ≠ 'H' ∧ c ≠ 'V' ∧
       c ≠ 'N' ∧ c ≠ '-') := by
  tauto

theorem c7_substitution_amended :
    ∀ p r : Char,
      defaultSubstitutionFunction '-' r = 0 ∧
      defaultSubstitutionFunction 'N' r = 2 ∧
      (p ≠ '-' → p ≠ 'N' →
        (defaultSubstitutionFunction p r = 2 ∨ defaultSubstitutionFunction p r = -1) ∧
        (defaultSubstitutionFunction p r = 2 ↔
          iupacBases r ≠ [] ∧ iupacBases r ⊆ iupacBases p)) := by
  intro p r
  refine ⟨rfl, rfl, fun h1 h2 => ?_⟩
  unfold defaultSubstitutionFunction iupacBases
  rcases char17_cases p with rfl|rfl|rfl|rfl|rfl|rfl|rfl|rfl|rfl|rfl|rfl|rfl|rfl|rfl|rfl|rfl|rfl|hp <;>
    rcases char17_cases r with rfl|rfl|rfl|rfl|rfl|rfl|rfl|rfl|rfl|rfl|rfl|rfl|rfl|rfl|rfl|rfl|rfl|hr <;>
    first
      | decide
      | (exact absurd rfl h1)
      | (exact absurd rfl h2)
      | simp_all

theorem c7_substitution_amended_witness :
    (defaultSubstitutionFunction 'W' 'A' = 2 ∨ defaultSubstitutionFunction 'W' 'A' = -1) ∧
    (defaultSubstitutionFunction 'W' 'A' = 2 ↔
      iupacBases 'A' ≠ [] ∧ iupacBases 'A' ⊆ iupacBases 'W') :=
  (c7_substitution_amended 'W' 'A').2.2 (by decide) (by decide)

theorem pyBitLengthAux_congr (fuel1 fuel2 n : ℕ) (hf1 : n ≤ fuel1) (hf2 : n ≤ fuel2) :
    pyBitLengthAux fuel1 n = pyBitLengthAux fuel2 n := by
  induction fuel1 generalizing fuel2 n with
  | zero =>
    have hn : n = 0 := by omega
    subst hn
    cases fuel2 <;> simp [pyBitLengthAux]
  | succ f ih =>
    cases fuel2 with
    | zero =>
      have hn : n = 0 := by omega
      subst hn
      simp [pyBitLengthAux]
    | succ g =>
      by_cases hn : n = 0
      · simp [pyBitLengthAux, hn]
      · simp only [pyBitLengthAux, if_neg hn]
        rw [ih g (n / 2) (by omega) (by omega)]

theorem pyBitLength_pos (n : ℕ) (h : 0 < n) : pyBitLength n = pyBitLength (n / 2) + 1 := by
  unfold pyBitLength
  obtain ⟨m, rfl⟩ : ∃ m, n = m + 1 := ⟨n - 1, by omega⟩
  simp only [pyBitLengthAux, if_neg (Nat.succ_ne_zero m)]
  rw [pyBitLengthAux_congr m ((m + 1) / 2) ((m + 1) / 2) (by omega) (by omega)]

theorem decrypt_po_pos (b : ℕ) (h : 0 < b) :
    decrypt_po b = (if b.testBit 0 then [0] else []) ++ ((decrypt_po (b / 2)).map (· + 1)) := by
  unfold decrypt_po
  rw [pyBitLength_pos b h, List.range_succ_eq_map, List.filter_cons, List.filter_map]
  have hcomp : ((fun i => b.testBit i) ∘ Nat.succ) = fun i => (b / 2).testBit i := by
    funext i
    simp [Function.comp, Nat.succ_eq_add_one, Nat.testBit_add_one]
  rw [hcomp]
  by_cases h0 : b.testBit 0 <;> simp [h0]

theorem encrypt_po_append (l1 l2 : List ℕ) :
    encrypt_po (l1 ++ l2) = encrypt_po l1 + encrypt_po l2 := by
  simp [encrypt_po]

theorem encrypt_po_map_succ (l : List ℕ) :
    encrypt_po (l.map (· + 1)) = 2 * encrypt_po l := by
  induction l with
  | nil => rfl
  | cons a t ih =>
    simp only [List.map_cons, encrypt_po, List.sum_cons] at *
    rw [ih]
    ring_nf
    omega

theorem encrypt_decrypt_po (b : ℕ) : encrypt_po (decrypt_po b) = b := by
  induction b using Nat.strong_induction_on with
  | _ b ih =>
    rcases Nat.eq_zero_or_pos b with rfl | hb
    · rfl
    · rw [decrypt_po_pos b hb, encrypt_po_append, encrypt_po_map_succ,
        ih (b / 2) (by omega)]
      by_cases h0 : b.testBit 0
      · have hm : b % 2 = 1 := by simpa [Nat.testBit_zero] using h0
        simp only [h0, if_true, encrypt_po, List.map_cons, List.map_nil, List.sum_cons,
          List.sum_nil, pow_zero]
        omega
      · have hm : ¬ b % 2 = 1 := by simpa [Nat.testBit_zero] using h0
        simp [h0, encrypt_po]
        omega

theorem decrypt_encrypt_small (F : List ℕ) (hs : List.Sorted (· < ·) F)
    (hsub : F ⊆ [0, 1, 2]) : decrypt_po (encrypt_po F) = F := by
  rcases F with _ | ⟨a, _ | ⟨b, _ | ⟨c, _ | ⟨d, t⟩⟩⟩⟩
  · decide
  · simp only [List.cons_subset, List.mem_cons, List.not_mem_nil, or_false,
      List.nil_subset, and_true] at hsub
    rcases hsub with rfl | rfl | rfl <;> decide
  · have hab : a < b := List.rel_of_sorted_cons hs b (by simp)
    simp only [List.cons_subset, List.mem_cons, List.not_mem_nil, or_false,
      List.nil_subset, and_true] at hsub
    rcases hsub with ⟨(rfl | rfl | rfl), (rfl | rfl | rfl)⟩ <;> first | omega | decide
  · have hab : a < b := List.rel_of_sorted_cons hs b (by simp)
    have hbc : b < c := List.rel_of_sorted_cons hs.of_cons c (by simp)
    simp only [List.cons_subset, List.mem_cons, List.not_mem_nil, or_false,
      List.nil_subset, and_true] at hsub
    rcases hsub with ⟨(rfl | rfl | rfl), (rfl | rfl | rfl), (rfl | rfl | rfl)⟩ <;>
      first | omega | decide
  · exfalso
    have hab : a < b := List.rel_of_sorted_cons hs b (by simp)
    have hbc : b < c := List.rel_of_sorted_cons hs.of_cons c (by simp)
    have hcd : c < d := List.rel_of_sorted_cons hs.of_cons.of_cons d (by simp)
    have hd : d ∈ [0, 1, 2] := hsub (by simp)
    simp only [List.mem_cons, List.not_mem_nil, or_false] at hd
    have hd2 : d ≤ 2 := by rcases hd with rfl | rfl | rfl <;> omega
    omega

/-- C5 counterexample: decode applies to any non-negative integer and
decode(15) has four elements, so the claimed bound of three fails for
general b. -/
theorem c5_bitmask_counterexample : ¬ ((decrypt_po 15).length ≤ 3) := by decide

/-- C5 amended: decode of encode is the identity on strictly sorted
subsets of the frames 0, 1, 2; encode of decode is the identity on all
non-negative integers; and decode of b has at most three elements for
every b below 8 (the range actually produced for the 3-bit
orf_candidates mask), while larger b can decode to more. -/
theorem c5_bitmask_amended :
    (∀ F : List ℕ, List.Sorted (· < ·) F → F ⊆ [0, 1, 2] →
       decrypt_po (encrypt_po F) = F) ∧
    (∀ b : ℕ, encrypt_po (decrypt_po b) = b) ∧
    (∀ b : ℕ, b < 8 → (decrypt_po b).length ≤ 3) := by
  exact ⟨decrypt_encrypt_small, encrypt_decrypt_po, by decide⟩

theorem c5_bitmask_witness :
    decrypt_po (encrypt_po [0, 2]) = [0, 2] ∧ (decrypt_po 5).length ≤ 3 :=
  ⟨c5_bitmask_amended.1 [0, 2] (by decide) (by decide), c5_bitmask_amended.2.2 5 (by decide)⟩

/-- C8: for every abstracted translation function each frame in the
result of list_possible_orf has a translation of the triplet-truncated
suffix that contains neither a stop codon nor an unknown symbol, and a
None or empty sequence yields the empty candidate set. -/
theorem c8_orf_candidates :
    ∀ (translate : List Char → Option (List Char)) (seq : Option (List Char)) (f : ℕ),
      (listPossibleOrf translate none = [] ∧ listPossibleOrf translate (some []) = []) ∧
      (f ∈ listPossibleOrf translate seq →
        ∃ p, translate (trimToTriplet ((seq.getD []).drop f)) = some p ∧
          '*' ∉ p ∧ 'X' ∉ p) := by
  intro translate seq f
  refine ⟨⟨rfl, rfl⟩, ?_⟩
  match seq with
  | none => intro h; simp [listPossibleOrf] at h
  | some s =>
    intro h
    simp only [listPossibleOrf] at h
    by_cases hs : s.length = 0
    · rw [if_pos hs] at h
      simp at h
    · rw [if_neg hs] at h
      have key : ∀ g ∈ (List.range 3).foldl (fun acc frame =>
          let framed := trimToTriplet (s.drop frame)
          if framed.length = 0 then acc
          else
            match translate framed with
            | none => acc
            | some protein =>
              if '*' ∉ protein ∧ 'X' ∉ protein then acc ++ [frame] else acc) [],
          ∃ p, translate (trimToTriplet (s.drop g)) = some p ∧ '*' ∉ p ∧ 'X' ∉ p := by
        refine List.foldlRecOn (motive := fun acc => ∀ g ∈ acc,
            ∃ p, translate (trimToTriplet (s.drop g)) = some p ∧ '*' ∉ p ∧ 'X' ∉ p)
          (List.range 3) _ [] (by simp) ?_
        intro acc hacc frame _ g hg
        dsimp only at hg
        split at hg
        · exact hacc g hg
        · split at hg
          · exact hacc g hg
          · rename_i protein htr
            by_cases h2 : '*' ∉ protein ∧ 'X' ∉ protein
            · rw [if_pos h2] at hg
              rcases List.mem_append.mp hg with hg2 | hg2
              · exact hacc g hg2
              · rcases List.mem_singleton.mp hg2 with rfl
                exact ⟨protein, htr, h2⟩
            · rw [if_neg h2] at hg
              exact hacc g hg
      simpa using key f h

theorem c8_orf_candidates_witness :
    0 ∈ listPossibleOrf (fun s => some (List.replicate (s.length / 3) 'M'))
        (some ['A', 'A', 'A']) ∧
    ∃ p, (fun s => some (List.replicate (s.length / 3) 'M'))
        (trimToTriplet (((some ['A', 'A', 'A']).getD ([] : List Char)).drop 0)) = some p ∧
      '*' ∉ p ∧ 'X' ∉ p :=
  ⟨by decide,
   (c8_orf_candidates (fun s => some (List.replicate (s.length / 3) 'M'))
     (some ['A', 'A', 'A']) 0).2 (by decide)⟩

theorem mainStep_bj (sw : SmithWaterman) (p w : List Char) (st : SWState) (ij : ℕ × ℕ) :
    (mainStep sw p w st ij).bj = ij.2 ∨ (mainStep sw p w st ij).bj = st.bj := by
  unfold mainStep
  dsimp only
  split_ifs <;> simp

theorem rightBonusStep_bj (sw : SmithWaterman) (rows cols : ℕ) (st : SWState) (i : ℕ) :
    (rightBonusStep sw rows cols st i).bj = cols - 1 ∨
    (rightBonusStep sw rows cols st i).bj = st.bj := by
  unfold rightBonusStep
  dsimp only
  split_ifs <;> simp

theorem cellIndices_snd_lt (rows cols : ℕ) (hc : 3 ≤ cols) (ij : ℕ × ℕ)
    (h : ij ∈ cellIndices rows cols) : ij.2 < cols := by
  unfold cellIndices List.product at h
  rw [List.mem_bind] at h
  obtain ⟨a, ha, hb⟩ := h
  rw [List.mem_map] at hb
  obtain ⟨b, hb2, rfl⟩ := hb
  rw [List.mem_range'_1] at hb2
  show b < cols
  omega

theorem alignMatrices_bj_lt (sw : SmithWaterman) (p w : List Char) (flags : Bool × Bool) :
    (alignMatrices sw p w flags).bj < w.length + 3 := by
  unfold alignMatrices
  dsimp only
  have hst1 : ((cellIndices (p.length + 3) (w.length + 3)).foldl (mainStep sw p w)
      ⟨if flags.1 then leftBonusInit sw.end_of_read_bonus_value (p.length + 3)
          (List.replicate (p.length + 3) (List.replicate (w.length + 3) (0 : ℤ)))
        else List.replicate (p.length + 3) (List.replicate (w.length + 3) (0 : ℤ)),
       List.replicate (p.length + 3) (List.replicate (w.length + 3) (0 : ℕ)), 0, 0, 0⟩).bj <
      w.length + 3 := by
    refine List.foldlRecOn (motive := fun (st : SWState) => st.bj < w.length + 3) _ _ _
      (by simp) ?_
    intro st hst ij hij
    rcases mainStep_bj sw p w st ij with h | h
    · rw [h]
      exact cellIndices_snd_lt (p.length + 3) (w.length + 3) (by omega) ij hij
    · rw [h]
      exact hst
  by_cases hf : flags.2
  · rw [if_pos hf]
    refine List.foldlRecOn (motive := fun (st : SWState) => st.bj < w.length + 3) _ _ _ hst1 ?_
    intro st hst i _
    rcases rightBonusStep_bj sw (p.length + 3) (w.length + 3) st i with h | h
    · rw [h]
      omega
    · rw [h]
      exact hst
  · rw [if_neg hf]
    exact hst1

theorem tracebackAux_j_le (w : List Char) (smat : List (List ℤ)) (tmat : List (List ℕ)) :
    ∀ (fuel i j : ℕ) (acc : List Char),
      (tracebackAux w smat tmat fuel i j acc).2.1 ≤ j := by
  intro fuel
  induction fuel with
  | zero => intro i j acc; simp [tracebackAux]
  | succ f ih =>
    intro i j acc
    simp only [tracebackAux]
    split_ifs <;> first
      | (exact le_trans (ih _ _ _) (by omega))
      | simp

theorem align_bounds (sw : SmithWaterman) (p w : List Char) (flags : Bool × Bool) :
    indexBounds w.length (align sw p w flags) := by
  unfold align
  split_ifs with h1 h2
  · exact ⟨le_refl 0, le_refl 0, Int.natCast_nonneg _⟩
  · exact ⟨le_refl 0, le_refl 0, Int.natCast_nonneg _⟩
  · have hbj := alignMatrices_bj_lt sw p w flags
    have hjf : (alignTrace sw p w flags).2.1 ≤ (alignMatrices sw p w flags).bj :=
      tracebackAux_j_le w (alignMatrices sw p w flags).smat (alignMatrices sw p w flags).tmat
        ((alignMatrices sw p w flags).bi + (alignMatrices sw p w flags).bj)
        (alignMatrices sw p w flags).bi (alignMatrices sw p w flags).bj []
    unfold alignResult indexBounds
    dsimp only
    refine ⟨Int.natCast_nonneg _, ?_, ?_⟩ <;> omega

/-- C3 counterexample: the fully degenerate call align("", "") returns
MatchResultDTO(0, "", 0, 0, ""), whose start and end indices are 0, not
-1, and which is_mismatch does not classify as a mismatch - contradicting
the claim that degenerate inputs return a mismatch. -/
theorem c3_degenerate_counterexample :
    (align swX [] [] (false, false)).is_mismatch = false ∧
    (align swX [] [] (false, false)).start_index ≠ -1 ∧
    (align swX [] [] (false, false)).end_index ≠ -1 := by
  exact ⟨rfl, by decide, by decide⟩

/-- C3 amended: degenerate inputs (empty primer, empty window, interval
end at or below the interval start) return the empty result
MatchResultDTO(0, "", 0, 0, primer), which has start = end = 0 and is
not classified as a mismatch. -/
theorem c3_degenerate_amended :
    ∀ (sw : SmithWaterman) (p w s : List Char) (flags : Bool × Bool) (lo hi : ℤ),
      align sw [] w flags = emptyMatch [] ∧
      align sw p [] flags = emptyMatch p ∧
      (hi ≤ lo → alignInterval sw p s lo hi = emptyMatch p) ∧
      (emptyMatch p).is_mismatch = false := by
  intro sw p w s flags lo hi
  refine ⟨by simp [align], ?_, ?_, rfl⟩
  · by_cases hp : p = [] <;> simp [align, hp]
  · intro h
    unfold alignInterval
    rw [if_pos (by omega)]

theorem c3_degenerate_amended_witness :
    alignInterval swX ['A'] ['A', 'C'] 3 1 = emptyMatch ['A'] :=
  (c3_degenerate_amended swX ['A'] [] ['A', 'C'] (false, false) 3 1).2.2.1 (by decide)

/-- C2 counterexample: aligning primer "A" against window "G" (no cell
scores positive) returns start = end = 0, which is neither the mismatch
pair (-1, -1) nor a pair with start strictly below end - refuting the
claimed disjunction for results of the Smith-Waterman path. -/
theorem c2_bounds_counterexample :
    ¬ (((align swX ['A'] ['G'] (false, false)).start_index = -1 ∧
        (align swX ['A'] ['G'] (false, false)).end_index = -1) ∨
       (0 ≤ (align swX ['A'] ['G'] (false, false)).start_index ∧
        (align swX ['A'] ['G'] (false, false)).start_index <
          (align swX ['A'] ['G'] (false, false)).end_index ∧
        (align swX ['A'] ['G'] (false, false)).end_index ≤
          ((['G'] : List Char).length : ℤ))) := by
  decide

/-- C2 amended: every produced MatchResult satisfies 0 ≤ start ≤ end
(with start = end possible), bounded by the window length for align, by
the sequence length for align_partial whenever the search interval ends
inside the sequence; for the regex path with a non-empty primer (primers
are non-empty in every SearchQuery) the result is either the mismatch
pair (-1, -1) or satisfies the strict 0 ≤ start < end ≤ len(read); the
invalidation step preserves these bounds (its replacement value has
start = end = 0). -/
theorem c2_bounds_amended :
    (∀ (sw : SmithWaterman) (p w : List Char) (flags : Bool × Bool),
       indexBounds w.length (align sw p w flags)) ∧
    (∀ (sw : SmithWaterman) (p s : List Char) (lo hi : ℤ),
       0 ≤ (alignInterval sw p s lo hi).start_index ∧
       (alignInterval sw p s lo hi).start_index ≤ (alignInterval sw p s lo hi).end_index ∧
       (hi ≤ (s.length : ℤ) →
         (alignInterval sw p s lo hi).end_index ≤ (s.length : ℤ))) ∧
    (∀ (sw : SmithWaterman) (p read : List Char), p ≠ [] →
       ((computeRegexMatch sw p read).start_index = -1 ∧
        (computeRegexMatch sw p read).end_index = -1) ∨
       (0 ≤ (computeRegexMatch sw p read).start_index ∧
        (computeRegexMatch sw p read).start_index <
          (computeRegexMatch sw p read).end_index ∧
        (computeRegexMatch sw p read).end_index ≤ (read.length : ℤ))) ∧
    (∀ (fp rp dna : List Char) (fwd rev : MatchResultDTO),
       indexBounds dna.length fwd → indexBounds dna.length rev →
       indexBounds dna.length (processRegionStep fp rp dna fwd rev).1 ∧
       indexBounds dna.length (processRegionStep fp rp dna fwd rev).2.1) := by
  refine ⟨align_bounds, ?_, ?_, ?_⟩
  · intro sw p s lo hi
    unfold alignInterval
    split_ifs with h
    · exact ⟨le_refl 0, le_refl 0, fun _ => Int.natCast_nonneg _⟩
    · dsimp only
      obtain ⟨hb1, hb2, hb3⟩ := align_bounds sw p ((s.take hi.toNat).drop (max 0 lo).toNat)
        (max 0 lo == 0, hi == (s.length : ℤ))
      rw [List.length_drop, List.length_take] at hb3
      refine ⟨?_, ?_, fun hhi => ?_⟩ <;> omega
  · intro sw p read hne
    have hlen : p.length ≠ 0 := by simpa [List.length_eq_zero] using hne
    unfold computeRegexMatch findExactMatch
    cases hfm : (List.range (read.length + 1)).find? (fun pos => matchesAt p read pos) with
    | none =>
      left
      simp [hfm]
    | some pos =>
      right
      have hp := List.find?_some hfm
      unfold matchesAt at hp
      rw [Bool.and_eq_true] at hp
      have hle := of_decide_eq_true hp.1
      dsimp only
      rw [if_pos (by omega)]
      dsimp only
      exact ⟨Int.natCast_nonneg _, by omega, by omega⟩
  · intro fp rp dna fwd rev h1 h2
    unfold processRegionStep
    split_ifs with hr hn <;>
      refine ⟨?_, ?_⟩ <;>
      · simp only [clampedFwd, clampedRev, clampZ, emptyMatch, indexBounds] at h1 h2 ⊢
        omega

theorem c2_bounds_witness :
    (((computeRegexMatch swX ['A'] dnaX).start_index = -1 ∧
      (computeRegexMatch swX ['A'] dnaX).end_index = -1) ∨
     (0 ≤ (computeRegexMatch swX ['A'] dnaX).start_index ∧
      (computeRegexMatch swX ['A'] dnaX).start_index <
        (computeRegexMatch swX ['A'] dnaX).end_index ∧
      (computeRegexMatch swX ['A'] dnaX).end_index ≤ (dnaX.length : ℤ))) ∧
    indexBounds dnaX.length (processRegionStep ['A', 'C'] ['G', 'T'] dnaX fwdX revX).1 :=
  ⟨c2_bounds_amended.2.2.1 swX ['A'] dnaX (by decide),
   (c2_bounds_amended.2.2.2 ['A', 'C'] ['G', 'T'] dnaX fwdX revX
    (by decide) (by decide)).1⟩

/-- C9 counterexample: with both sides matched (neither is a mismatch)
and an empty inter-primer region (forward end equals reverse start), the
claim says both matches are left as computed, but the code invalidates
the reverse side, replacing it by a result with start_index 0 instead of
its computed start_index 2. -/
theorem c9_locator_counterexample :
    fwdX.is_mismatch = false ∧ revX.is_mismatch = false ∧
    (pyStrip (interRegion dnaX (clampedFwd dnaX fwdX) (clampedRev dnaX revX))).length = 0 ∧
    (processRegionStep ['A', 'C'] ['G', 'T'] dnaX fwdX revX).2.1.start_index ≠
      revX.start_index := by
  refine ⟨rfl, rfl, by decide, ?_⟩
  unfold processRegionStep
  rw [if_neg (by decide),
    if_neg (show ¬ normScore (clampedFwd dnaX fwdX) < normScore (clampedRev dnaX revX) by
      simp [normScore, clampedFwd, clampedRev, fwdX, revX])]
  decide

/-- C9 amended: whenever the whitespace-stripped inter-primer region is
empty - regardless of how many sides matched - the side with the
strictly smaller per-base normalised score is invalidated, the reverse
side on ties; when the stripped region is non-empty both matches are
kept (only clamped into the sequence). -/
theorem c9_locator_amended :
    ∀ (fp rp dna : List Char) (fwd rev : MatchResultDTO),
      (0 < (pyStrip (interRegion dna (clampedFwd dna fwd) (clampedRev dna rev))).length →
        processRegionStep fp rp dna fwd rev =
          (clampedFwd dna fwd, clampedRev dna rev,
           some (interRegion dna (clampedFwd dna fwd) (clampedRev dna rev)))) ∧
      ((pyStrip (interRegion dna (clampedFwd dna fwd) (clampedRev dna rev))).length = 0 →
        (normScore (clampedFwd dna fwd) < normScore (clampedRev dna rev) →
          processRegionStep fp rp dna fwd rev = (emptyMatch fp, clampedRev dna rev, none)) ∧
        (¬ normScore (clampedFwd dna fwd) < normScore (clampedRev dna rev) →
          processRegionStep fp rp dna fwd rev = (clampedFwd dna fwd, emptyMatch rp, none))) := by
  intro fp rp dna fwd rev
  unfold processRegionStep
  split_ifs with hr hn
  · exact ⟨fun _ => rfl, fun h0 => absurd hr (by omega)⟩
  · exact ⟨fun hp => absurd hp hr, fun _ => ⟨fun _ => rfl, fun hc => absurd hn hc⟩⟩
  · exact ⟨fun hp => absurd hp hr, fun _ => ⟨fun hc => absurd hc hn, fun _ => rfl⟩⟩

theorem c9_locator_amended_witness :
    processRegionStep ['A', 'C'] ['G', 'T'] dnaX fwdX revX =
      (clampedFwd dnaX fwdX, emptyMatch ['G', 'T'], none) :=
  ((c9_locator_amended ['A', 'C'] ['G', 'T'] dnaX fwdX revX).2 (by decide)).2
    (by simp [normScore, clampedFwd, clampedRev, fwdX, revX])
